import Mathlib

/-!
Formal model of the lsphere circle-packing SVG renderer.

The definitions below are a shallow embedding of `src/render/svg.ts` and
`src/core/palettes.ts` (the `pickD3Scheme` helper).  JavaScript numbers are
modelled by exact rationals (`ℚ`); the transcendental pieces that live in the
external `d3` libraries (`Math.log` inside `scaleLog`, `Math.cos`/`Math.sin`
for the label arc, and the default number-to-string conversion used by
template literals) are threaded as explicit function parameters, since the
claims under study never depend on their concrete values.  `Math.PI` is the
exact rational value of the IEEE-754 double stored in that constant.

The circle-packing layout itself is performed by the external `d3-hierarchy`
library (`pack`), which is not part of this repository; the renderer consumes
its output.  Accordingly the rendering model takes the packed tree (positions
`x`, `y` and radius `r` for every node, in the original child order, as
`d3`'s `pack` preserves it) as an input, and the walk over
`packed.descendants()` is modelled as the same breadth-first (level order)
traversal that `d3-hierarchy` uses, with the root (depth 0) skipped exactly
as the source loop does.
-/

namespace LSphere

/-- Exact rational value of the IEEE-754 double `Math.PI`
(`884279719003555 / 2^48`). -/
def jsPI : ℚ := 884279719003555 / 281474976710656

/-- `clamp` from `src/render/svg.ts`:
`Math.max(min, Math.min(max, v))` (arguments in source order `min, max, v`). -/
def clamp (lo hi v : ℚ) : ℚ := max lo (min hi v)

/-- `Math.round` of JavaScript: nearest integer, ties toward positive
infinity, i.e. `⌊x + 1/2⌋`. -/
def jsRound (q : ℚ) : ℤ := ⌊q + 1/2⌋

/-- Render a natural number below 100 with exactly two digits. -/
def twoDigits (n : ℕ) : String := (if n < 10 then "0" else "") ++ toString n

/-- `n.toFixed(2).replace(/\.00$/, '')` for a non-negative rational:
round to the nearest multiple of 1/100 (ties away from zero on the
magnitude, as `toFixed` specifies), print with two decimals and strip a
trailing ".00". -/
def fmtAbs (q : ℚ) : String :=
  let n : ℕ := (⌊q * 100 + 1/2⌋).toNat
  let ip := n / 100
  let fr := n % 100
  if fr = 0 then toString ip else toString ip ++ "." ++ twoDigits fr

/-- `fmt` from `src/render/svg.ts`: `n.toFixed(2).replace(/\.00$/, '')`
(our inputs are always finite, so the `Number.isFinite` guard is the
taken branch).  `toFixed` applies the sign to the rounded magnitude. -/
def fmt (q : ℚ) : String := if q < 0 then "-" ++ fmtAbs (-q) else fmtAbs q

/-- `estimateTextWidth` from `src/render/svg.ts`:
`fontSize * 0.5 * text.length`. -/
def estimateTextWidth (text : String) (fontSize : ℚ) : ℚ :=
  fontSize * (1/2) * (text.length : ℚ)

/-- One character of `escapeXml`'s regex replacement
(`/[<>&'"]/g` with the five XML entities). -/
def escChar (c : Char) : List Char :=
  if c = '<' then "&lt;".data
  else if c = '>' then "&gt;".data
  else if c = '&' then "&amp;".data
  else if c = '"' then "&quot;".data
  else if c = '\'' then "&#39;".data
  else [c]

/-- `escapeXml` from `src/render/svg.ts`: replace every occurrence of one of
the five reserved markup characters by its entity. -/
def escapeXml (s : String) : String := ⟨s.data.flatMap escChar⟩

/-- Characters kept verbatim by `safeId`'s sanitiser
(the regex class `[a-zA-Z0-9_-]`). -/
def idChar (c : Char) : Bool :=
  (('a' ≤ c && c ≤ 'z') || ('A' ≤ c && c ≤ 'Z') || ('0' ≤ c && c ≤ '9')
    || c = '_' || c = '-')

/-- `name.replace(/[^a-zA-Z0-9_-]+/g, '-')`: collapse each maximal run of
characters outside the class into a single dash.  The boolean argument
records whether the previous character was part of such a run. -/
def sanitizeAux : Bool → List Char → List Char
  | _, [] => []
  | prevBad, c :: rest =>
    if idChar c then c :: sanitizeAux false rest
    else if prevBad then sanitizeAux true rest
    else '-' :: sanitizeAux true rest

/-- Sanitised form of one path segment used by `safeId`. -/
def sanitizeName (s : String) : String := ⟨sanitizeAux false s.data⟩

/-- JavaScript's default lexicographic string order (`<` on strings, as used
by `Array.prototype.sort` without comparator after stringification): compare
code units left to right.  Modelled on scalar values; identical on the ASCII
strings involved here.  This is executable, unlike Mathlib's `String` order,
and agrees with it. -/
def lexLe : List Char → List Char → Bool
  | [], _ => true
  | _ :: _, [] => false
  | a :: as, b :: bs =>
    if a.toNat < b.toNat then true
    else if b.toNat < a.toNat then false
    else lexLe as bs

/-- String form `Array.prototype.sort`'s default comparator sees for an
`[ext, color]` entry of the legend map: the elements joined by a comma. -/
def pairKey (e : String × String) : String := e.1 ++ "," ++ e.2

/- ----------------------------------------------------------------- -/
/- `pickD3Scheme` (`src/core/palettes.ts`).  The ten schemes are the
   constant arrays imported from the external `d3-scale-chromatic`
   package; their hex values are reproduced here, though every claim in
   this development depends only on which scheme object is returned. -/

/-- `d3.schemeCategory10`. -/
def schemeCategory10 : List String :=
  ["#1f77b4", "#ff7f0e", "#2ca02c", "#d62728", "#9467bd",
   "#8c564b", "#e377c2", "#7f7f7f", "#bcbd22", "#17becf"]

/-- `d3.schemeTableau10`. -/
def schemeTableau10 : List String :=
  ["#4e79a7", "#f28e2c", "#e15759", "#76b7b2", "#59a14f",
   "#edc949", "#af7aa1", "#ff9da7", "#9c755f", "#bab0ab"]

/-- `d3.schemeSet3`. -/
def schemeSet3 : List String :=
  ["#8dd3c7", "#ffffb3", "#bebada", "#fb8072", "#80b1d3", "#fdb462",
   "#b3de69", "#fccde5", "#d9d9d9", "#bc80bd", "#ccebc5", "#ffed6f"]

/-- `d3.schemePaired`. -/
def schemePaired : List String :=
  ["#a6cee3", "#1f78b4", "#b2df8a", "#33a02c", "#fb9a99", "#e31a1c",
   "#fdbf6f", "#ff7f00", "#cab2d6", "#6a3d9a", "#ffff99", "#b15928"]

/-- `d3.schemeDark2`. -/
def schemeDark2 : List String :=
  ["#1b9e77", "#d95f02", "#7570b3", "#e7298a", "#66a61e", "#e6ab02",
   "#a6761d", "#666666"]

/-- `d3.schemeAccent`. -/
def schemeAccent : List String :=
  ["#7fc97f", "#beaed4", "#fdc086", "#ffff99", "#386cb0", "#f0027f",
   "#bf5b17", "#666666"]

/-- `d3.schemePastel1`. -/
def schemePastel1 : List String :=
  ["#fbb4ae", "#b3cde3", "#ccebc5", "#decbe4", "#fed9a6", "#ffffcc",
   "#e5d8bd", "#fddaec", "#f2f2f2"]

/-- `d3.schemePastel2`. -/
def schemePastel2 : List String :=
  ["#b3e2cd", "#fdcdac", "#cbd5e8", "#f4cae4", "#e6f5c9", "#fff2ae",
   "#f1e2cc", "#cccccc"]

/-- `d3.schemeSet1`. -/
def schemeSet1 : List String :=
  ["#e41a1c", "#377eb8", "#4daf4a", "#984ea3", "#ff7f00", "#ffff33",
   "#a65628", "#f781bf", "#999999"]

/-- `d3.schemeSet2`. -/
def schemeSet2 : List String :=
  ["#66c2a5", "#fc8d62", "#8da0cb", "#e78ac3", "#a6d854", "#ffd92f",
   "#e5c494", "#b3b3b3"]

/-- The ten schemes `pickD3Scheme` may return. -/
def allSchemes : List (List String) :=
  [schemeCategory10, schemeTableau10, schemeSet3, schemePaired, schemeDark2,
   schemeAccent, schemePastel1, schemePastel2, schemeSet1, schemeSet2]

/-- The ten recognised (lower-case) scheme names of the `switch`. -/
def recognizedNames : List String :=
  ["category10", "tableau10", "set3", "paired", "dark2",
   "accent", "pastel1", "pastel2", "set1", "set2"]

/-- `String.prototype.toLowerCase`, modelled character-wise with
`Char.toLower` (which lower-cases the ASCII letters; the comparisons in
`pickD3Scheme` are against ASCII names, on which the two agree). -/
def jsToLower (s : String) : String := ⟨s.data.map Char.toLower⟩

/-- The `switch` body of `pickD3Scheme`, applied to the already
lower-cased name. -/
def pickByKey (n : String) : List String :=
  if n = "category10" then schemeCategory10
  else if n = "tableau10" then schemeTableau10
  else if n = "set3" then schemeSet3
  else if n = "paired" then schemePaired
  else if n = "dark2" then schemeDark2
  else if n = "accent" then schemeAccent
  else if n = "pastel1" then schemePastel1
  else if n = "pastel2" then schemePastel2
  else if n = "set1" then schemeSet1
  else if n = "set2" then schemeSet2
  else schemeTableau10

/-- `pickD3Scheme` from `src/core/palettes.ts`:
`switch ((name ?? 'tableau10').toLowerCase()) { ... }` with
`schemeTableau10` as the default branch. -/
def pickD3Scheme (name : Option String) : List String :=
  pickByKey (jsToLower (name.getD "tableau10"))

/- ----------------------------------------------------------------- -/
/- Data model (`src/core/model.ts`).  `DirNode`/`FileNode` form a tagged
   union; the children list is represented by the mutually inductive
   `TForest` so that all recursions stay structural (and hence reduce
   inside the kernel).  `size` is a byte count delivered by the scanner. -/

mutual
inductive TreeNode where
  | file (name : String) (size : ℚ) (ext : String)
  | dir (name : String) (children : TForest)
deriving DecidableEq
inductive TForest where
  | nil
  | cons (head : TreeNode) (tail : TForest)
deriving DecidableEq
end

/-- `SnapshotMeta`: the renderer reads only `meta.root` (the title text);
the remaining metadata fields never reach the SVG path. -/
structure SnapshotMeta where
  root : String
deriving DecidableEq

/-- `Snapshot` (`src/core/model.ts`): metadata header plus the tree. -/
structure Snapshot where
  meta : SnapshotMeta
  tree : TreeNode
deriving DecidableEq

/-- The slice of `Options` (`src/core/options.ts`) that
`renderSvgFromSnapshot` reads: `bgColor`, `palette` and `extColors`.
The extension-override record is an association list (JavaScript object
lookup by key). -/
structure Options where
  bgColor : String
  palette : String
  extColors : List (String × String)
deriving DecidableEq

/-- Object-property lookup `record[key]` on the override record. -/
def mapGet : List (String × String) → String → Option String
  | [], _ => none
  | (k, v) :: rest, key => if k = key then some v else mapGet rest key

/-- `Map.prototype.set`: replace the value in place if the key is present
(keeping its insertion position), otherwise append a new entry. -/
def mapSet : List (String × String) → String → String → List (String × String)
  | [], k, v => [(k, v)]
  | (k', v') :: rest, k, v =>
    if k' = k then (k, v) :: rest else (k', v') :: mapSet rest k v

/-- Index of the first occurrence of a key in a list (the lookup of
`d3.scaleOrdinal`'s internal index map). -/
def firstIdx : List String → String → Option ℕ
  | [], _ => none
  | k :: rest, key =>
    if k = key then some 0 else (firstIdx rest key).map (· + 1)

/- ----------------------------------------------------------------- -/
/- Weight model (`src/render/svg.ts` lines 31-45).  `Math.log` is the
   parameter `lg`; the normalised parameter of the scale is a ratio of
   log differences, so it is the same for any logarithm base (the claim's
   "base-10" and `d3`'s natural log agree). -/

mutual
/-- The `walk` of `renderSvgFromSnapshot`: collect `Math.max(1, n.size)`
for every file, in document (depth-first, preorder) order. -/
def collectSizes : TreeNode → List ℚ
  | .file _ s _ => [max 1 s]
  | .dir _ cs => collectSizesF cs
def collectSizesF : TForest → List ℚ
  | .nil => []
  | .cons h t => collectSizes h ++ collectSizesF t
end

/-- `sMin`: `sizes.length ? Math.max(1, Math.min(...sizes)) : 1`. -/
def sMinOf (t : TreeNode) : ℚ :=
  match collectSizes t with
  | [] => 1
  | s :: rest => max 1 (rest.foldl min s)

/-- `sMax`: `sizes.length ? Math.max(sMin + 1, Math.max(...sizes)) : sMin + 1`. -/
def sMaxOf (t : TreeNode) : ℚ :=
  match collectSizes t with
  | [] => sMinOf t + 1
  | s :: rest => max (sMinOf t + 1) (rest.foldl max s)

/-- `d3`'s input clamper for a continuous scale with `.clamp(true)`:
restrict the argument to the domain interval (swapping the ends if they
were given in decreasing order). -/
def clamper (a b x : ℚ) : ℚ :=
  if a ≤ b then max a (min b x) else max b (min a x)

/-- The value computed by
`scaleLog().domain([a, b]).range([1, 100]).clamp(true)` at `x`, for a
logarithm `lg`: clamp `x` into `[a, b]`, normalise `lg x` between `lg a`
and `lg b` (`d3` returns the constant 1/2 when the transformed domain is
degenerate), then interpolate in `[1, 100]`. -/
def d3LogScale (lg : ℚ → ℚ) (a b x : ℚ) : ℚ :=
  let xc := clamper a b x
  let denom := lg b - lg a
  let tt := if denom = 0 then 1/2 else (lg xc - lg a) / denom
  1 + tt * 99

/-- The per-node value function passed to `root.sum`:
`d.kind === 'file' ? weight(Math.max(1, d.size)) : 0`. -/
def weightFnOf (lg : ℚ → ℚ) (t : TreeNode) : TreeNode → ℚ := fun d =>
  match d with
  | .file _ s _ => d3LogScale lg (sMinOf t) (sMaxOf t) (max 1 s)
  | .dir _ _ => 0

mutual
/-- All leaves of a tree with their name, byte size and extension, in
document order. -/
def leavesOf : TreeNode → List (String × ℚ × String)
  | .file n s e => [(n, s, e)]
  | .dir _ cs => leavesOfF cs
def leavesOfF : TForest → List (String × ℚ × String)
  | .nil => []
  | .cons h t => leavesOf h ++ leavesOfF t
end

/-- Modelled from the spec: §4.1's `logScale` in the spec's own words —
"maps `[sMin, sMax]` onto `[1, 100]` using a base-10 logarithmic
interpolation, clamped to the range".  Stated for an arbitrary logarithm
`lg` because the interpolation ratio is base-invariant. -/
def specLogScale (lg : ℚ → ℚ) (a b x : ℚ) : ℚ :=
  clamp 1 100 (1 + ((lg x - lg a) / (lg b - lg a)) * 99)

/-- Modelled from the spec: §4.2 step 1, the packing engine's leaf radius
`r = sqrt(weight / π) * k` for a shared scale constant `k`; the square
root is the parameter `sq`.  The packing engine itself lives in the
external `d3-hierarchy` package, not in this repository. -/
def packLeafRadius (sq : ℚ → ℚ) (k w : ℚ) : ℚ := sq (w / jsPI) * k

/-- The weight the layout assigns to a leaf of byte size `s`:
`weight(Math.max(1, s))` with the scale built over the tree's observed
sizes. -/
def leafWeight (lg : ℚ → ℚ) (t : TreeNode) (s : ℚ) : ℚ :=
  d3LogScale lg (sMinOf t) (sMaxOf t) (max 1 s)

/- ----------------------------------------------------------------- -/
/- The packed layout consumed by the main render loop: every node carries
   the centre and radius assigned by the external `pack` layout, which
   wraps the original node data (`name`, `ext`).  `PForest` keeps the
   original child order (`pack` preserves it; the source never calls
   `hierarchy.sort`). -/

mutual
inductive PNode where
  | file (name ext : String) (x y r : ℚ)
  | dir (name : String) (x y r : ℚ) (children : PForest)
deriving DecidableEq
inductive PForest where
  | nil
  | cons (head : PNode) (tail : PForest)
deriving DecidableEq
end

mutual
/-- Number of nodes of a packed tree (used to bound the breadth-first
walk). -/
def sizeP : PNode → ℕ
  | .file _ _ _ _ _ => 1
  | .dir _ _ _ _ cs => 1 + sizeF cs
def sizeF : PForest → ℕ
  | .nil => 0
  | .cons h t => sizeP h + sizeF t
end

/-- A frontier entry of the breadth-first walk: the names of the node's
strict ancestors (nearest first, root last — the tail of
`node.ancestors()`) together with the node. -/
abbrev Entry := List String × PNode

/-- Plain list of a forest's children. -/
def childList : PForest → List PNode
  | .nil => []
  | .cons h t => h :: childList t

/-- Frontier entries for the children of a node. -/
def childEntries (anc : List String) : PNode → List Entry
  | .file _ _ _ _ _ => []
  | .dir name _ _ _ cs => (childList cs).map (fun c => (name :: anc, c))

/-- Total node count of a frontier (fuel bound for `bfsFuel`). -/
def frontW (fr : List Entry) : ℕ := (fr.map (fun e => sizeP e.2)).sum

/-- Level-order (breadth-first) traversal, as produced by
`d3-hierarchy`'s node iterator (and hence by `packed.descendants()`):
emit the current level, then recurse on the concatenation of all
children.  The fuel argument only serves to make the recursion
structural; `bfsFuel_stable` below shows any fuel of at least `frontW fr`
(one unit per node left to visit, which bounds the number of remaining
levels) yields the same list. -/
def bfsFuel : ℕ → List Entry → List Entry
  | _, [] => []
  | 0, fr => fr
  | n + 1, fr => fr ++ bfsFuel n (fr.flatMap (fun e => childEntries e.1 e.2))

/-- `packed.descendants()` with the root (depth 0) skipped, exactly as the
source loop does via `continue`: level-order walk of everything below the
root. -/
def bfsList (packed : PNode) : List Entry :=
  bfsFuel (sizeP packed) (childEntries [] packed)

/- ----------------------------------------------------------------- -/
/- Colour assignment (`colorForFile` and the `extColorMap` /
   `fileColorScale` pair). -/

/-- The mutable state of one render: the ordinal scale's dynamically grown
key domain (first-seen order) and the `extColorMap` legend cache
(insertion order). -/
structure ColorState where
  domain : List String
  extMap : List (String × String)
deriving DecidableEq

/-- `d3.scaleOrdinal` with range `range`: look the key up in the grown
domain, appending it on a miss, and return `range[i % range.length]`
(the ten schemes are never empty, so the fallback string standing in for
JavaScript's `undefined` is unreachable). -/
def ordinalColor (range domain : List String) (key : String) :
    String × List String :=
  match firstIdx domain key with
  | some i => (range.getD (i % range.length) "undefined", domain)
  | none =>
    (range.getD (domain.length % range.length) "undefined", domain ++ [key])

/-- The palette path of `colorForFile`: key by the extension when
non-empty, else by the file name; cache the colour in `extColorMap`
keyed by the extension when the extension is non-empty. -/
def paletteAssign (scheme : List String) (st : ColorState)
    (ext name : String) : String × ColorState :=
  let key := if ext ≠ "" then ext else name
  let oc := ordinalColor scheme st.domain key
  let extMap' := if ext ≠ "" then mapSet st.extMap ext oc.1 else st.extMap
  (oc.1, ⟨oc.2, extMap'⟩)

/-- `colorForFile` from `src/render/svg.ts`:
`if (ext && options.extColors[ext]) return options.extColors[ext];` —
the guard is JavaScript truthiness, so the extension must be non-empty
and the override value must be a non-empty (truthy) string — otherwise
fall through to the palette path. -/
def colorForFile (extColors : List (String × String)) (scheme : List String)
    (st : ColorState) (ext name : String) : String × ColorState :=
  match (if ext = "" then none else mapGet extColors ext) with
  | some c => if c = "" then paletteAssign scheme st ext name else (c, st)
  | none => paletteAssign scheme st ext name

/-- JavaScript truthiness of `options.extColors[ext]`: the key is present
and its value is a non-empty string. -/
def overrideTruthy (extColors : List (String × String)) (ext : String) : Bool :=
  match mapGet extColors ext with
  | some c => c != ""
  | none => false

/- ----------------------------------------------------------------- -/
/- The ambient functions of the JavaScript runtime that the renderer
   applies to arbitrary values: `Math.cos`, `Math.sin` (for the label
   arc's endpoints) and the default number-to-string conversion of
   template literals (used for the font sizes, which are interpolated
   without `fmt`).  They are IEEE-754 double operations; the claims never
   constrain their values, so they are honest parameters of the model. -/
structure JsMath where
  numToString : ℚ → String
  cos : ℚ → ℚ
  sin : ℚ → ℚ

/-- Directory label font size: `clamp(9, 14, r / 4)`. -/
def dirFontSize (r : ℚ) : ℚ := clamp 9 14 (r / 4)

/-- Desired pixel gap for a directory label:
`estimateTextWidth(name, fontSize) + 2 * labelPad` with `labelPad = 10`. -/
def dirGapPx (name : String) (r : ℚ) : ℚ :=
  estimateTextWidth name (dirFontSize r) + 2 * 10

/-- `C = 2 * Math.PI * r`. -/
def circumference (r : ℚ) : ℚ := 2 * jsPI * r

/-- `gapClamped = Math.min(Math.max(gapPx, 10), Math.max(C * 0.45, 10))`. -/
def dirGapClamped (name : String) (r : ℚ) : ℚ :=
  min (max (dirGapPx name r) 10) (max (circumference r * (45/100)) 10)

/-- `dash = Math.max(C - gapClamped, 0)`. -/
def dirDash (name : String) (r : ℚ) : ℚ :=
  max (circumference r - dirGapClamped name r) 0

/-- `dashLeft = dash / 2`. -/
def dirDashLeft (name : String) (r : ℚ) : ℚ := dirDash name r / 2

/-- The filled circle emitted for every node (white for directories,
palette/override colour for files). -/
def circleLine (x y r : ℚ) (fill : String) : String :=
  "    <circle cx=\"" ++ fmt x ++ "\" cy=\"" ++ fmt y ++ "\" r=\"" ++ fmt r
    ++ "\" fill=\"" ++ fill ++ "\" />"

/-- First line of the rim stroke element. -/
def dirStrokeOpen (x y r : ℚ) : String :=
  "    <circle cx=\"" ++ fmt x ++ "\" cy=\"" ++ fmt y ++ "\" r=\"" ++ fmt r
    ++ "\""

/-- Second line of the rim stroke element
(`stroke = '#222'`, `strokeWidth = 1.2`). -/
def dirStrokeStyle : String :=
  "            fill=\"none\" stroke=\"#222\" stroke-width=\"1.2\""

/-- The dash-array line of the rim stroke: the
`dashLeft gapClamped dashLeft` triple. -/
def dirDashLine (name : String) (r : ℚ) : String :=
  "            stroke-dasharray=\"" ++ fmt (dirDashLeft name r) ++ " "
    ++ fmt (dirGapClamped name r) ++ " " ++ fmt (dirDashLeft name r) ++ "\""

/-- The rotation line of the rim stroke: the whole stroke is turned a
quarter turn about the centre, bringing the dash pattern's gap (whose
arc-length midpoint sits half the circumference away from the stroke
start at the 3 o'clock point, i.e. at 9 o'clock) to 12 o'clock. -/
def dirRotateLine (x y : ℚ) : String :=
  "            transform=\"rotate(90 " ++ fmt x ++ " " ++ fmt y ++ ")\" />"

/-- The four lines pushed for a labelled directory's rim stroke. -/
def dirStrokeLines (name : String) (x y r : ℚ) : List String :=
  [dirStrokeOpen x y r, dirStrokeStyle, dirDashLine name r, dirRotateLine x y]

/-- `safeId`: the sanitised names of `node.ancestors()` (the node itself,
then its ancestors up to the root) joined by dashes. -/
def safeId (anc : List String) (name : String) : String :=
  String.intercalate "-" ((name :: anc).map sanitizeName)

/-- `arcId = rim-${safeId(node)}-${Math.round(x)}-${Math.round(y)}`. -/
def arcIdOf (anc : List String) (name : String) (x y : ℚ) : String :=
  "rim-" ++ safeId anc name ++ "-" ++ toString (jsRound x) ++ "-"
    ++ toString (jsRound y)

/-- The directory label chunk: an arc path definition hugging the rim gap
(`theta = gapClamped / Math.max(1, r)` radians centred on the top of the
circle) and a text-on-path element carrying the escaped directory name. -/
def dirLabelChunk (M : JsMath) (anc : List String) (name : String)
    (x y r : ℚ) : String :=
  let theta := dirGapClamped name r / max 1 r
  let a0 := -(jsPI / 2) - theta / 2
  let a1 := -(jsPI / 2) + theta / 2
  let x0 := x + r * M.cos a0
  let y0 := y + r * M.sin a0 + 4
  let x1 := x + r * M.cos a1
  let y1 := y + r * M.sin a1 + 4
  let arcId := arcIdOf anc name x y
  String.intercalate "\n"
    ["    <defs><path id=\"" ++ arcId ++ "\" d=\"M " ++ fmt x0 ++ " "
       ++ fmt y0 ++ " A " ++ fmt r ++ " " ++ fmt r ++ " 0 0 1 " ++ fmt x1
       ++ " " ++ fmt y1 ++ "\"/></defs>",
     "    <text font-family=\"sans-serif\" font-size=\""
       ++ M.numToString (dirFontSize r) ++ "\" fill=\"#000\">",
     "      <textPath href=\"#" ++ arcId
       ++ "\" startOffset=\"50%\" text-anchor=\"middle\">" ++ escapeXml name
       ++ "</textPath>",
     "    </text>"]

/-- File label font size: `clamp(8, 13, r / 3.5)`. -/
def fileFontSize (r : ℚ) : ℚ := clamp 8 13 (r / (7/2))

/-- The file label: centred white text with the escaped file name. -/
def fileLabelLine (M : JsMath) (x y r : ℚ) (name : String) : String :=
  "    <text x=\"" ++ fmt x ++ "\" y=\"" ++ fmt y
    ++ "\" text-anchor=\"middle\" dominant-baseline=\"middle\""
    ++ " font-family=\"sans-serif\" font-size=\""
    ++ M.numToString (fileFontSize r) ++ "\" fill=\"#fff\">"
    ++ escapeXml name ++ "</text>"

/-- The three per-node output layers plus the colour state, mirroring the
`layerCircles` / `layerFileLabels` / `layerDirLabels` arrays and the
`extColorMap` + ordinal-scale pair of the source. -/
structure Layers where
  circles : List String
  fileLabels : List String
  dirLabels : List (ℚ × String)
  cs : ColorState
deriving DecidableEq

/-- The fresh accumulators of one render invocation. -/
def initLayers : Layers := ⟨[], [], [], ⟨[], []⟩⟩

/-- The body of the `for (const node of packed.descendants())` loop, for
one (non-root) node: directories push their white fill, and — above
radius 12 — the rim stroke and the arched label; files resolve their
colour (possibly updating the colour state), push their filled circle
and — above radius 12 — the white name label. -/
def processNode (extColors : List (String × String)) (scheme : List String)
    (M : JsMath) (acc : Layers) (v : Entry) : Layers :=
  match v.2 with
  | .dir name x y r _ =>
    if r > 12 then
      ⟨acc.circles ++ [circleLine x y r "#fff"] ++ dirStrokeLines name x y r,
       acc.fileLabels,
       acc.dirLabels ++ [(r, dirLabelChunk M v.1 name x y r)],
       acc.cs⟩
    else
      ⟨acc.circles ++ [circleLine x y r "#fff"], acc.fileLabels,
       acc.dirLabels, acc.cs⟩
  | .file name ext x y r =>
    let fc := colorForFile extColors scheme acc.cs ext name
    if r > 12 then
      ⟨acc.circles ++ [circleLine x y r fc.1],
       acc.fileLabels ++ [fileLabelLine M x y r name],
       acc.dirLabels, fc.2⟩
    else
      ⟨acc.circles ++ [circleLine x y r fc.1], acc.fileLabels,
       acc.dirLabels, fc.2⟩

/-- The complete loop: fold the per-node body over the level-order list of
non-root nodes. -/
def renderLayers (extColors : List (String × String)) (scheme : List String)
    (M : JsMath) (packed : PNode) : Layers :=
  (bfsList packed).foldl (processNode extColors scheme M) initLayers

/-- `.sort((a, b) => b.r - a.r)` on the directory label layer: a stable
sort by decreasing radius.  `Array.prototype.sort` is stable, and a
stable insertion sort under the same ordering produces the identical
list. -/
def sortDirLabels (l : List (ℚ × String)) : List (ℚ × String) :=
  List.insertionSort (fun a b => b.1 ≤ a.1) l

/-- `Array.from(extColorMap.entries()).sort()`: the default sort compares
the string forms of the `[ext, color]` entries, i.e. `ext ++ "," ++ color`,
in code-unit order; again a stable insertion sort under the same ordering
matches it. -/
def legendSort (m : List (String × String)) : List (String × String) :=
  List.insertionSort (fun a b => lexLe (pairKey a).data (pairKey b).data = true) m

/-- One legend row (`legendBottom = 876`, `legendLeft = 900`, swatch size
12 so radius 6, text offset `SW + GAP = 20`, row height 18; rows are
anchored to the bottom and stack upward). -/
def legendRowLines (count : ℕ) (ie : ℕ × (String × String)) : List String :=
  let y : ℚ := 876 - ((count - 1 - ie.1 : ℕ) : ℚ) * 18
  ["    <g transform=\"translate(" ++ fmt 900 ++ ", " ++ fmt y ++ ")\">",
   "      <circle cx=\"" ++ fmt 6 ++ "\" cy=\"0\" r=\"" ++ fmt 6
     ++ "\" fill=\"" ++ ie.2.2 ++ "\" />",
   "      <text x=\"" ++ fmt 20
     ++ "\" y=\"0\" font-family=\"sans-serif\" font-size=\"12\"",
   "            dominant-baseline=\"middle\" fill=\"#000\">"
     ++ escapeXml ie.2.1 ++ "</text>",
   "    </g>"]

/-- The `legendGroup` lines. -/
def legendLines (entries : List (String × String)) : List String :=
  ["  <g class=\"legend\">"]
    ++ entries.enum.flatMap (legendRowLines entries.length)
    ++ ["  </g>"]

/-- Fixed opening lines of the document (canvas `1100 x 900` including the
100-wide legend panel; the title sits at `x = margin.left = 24`,
`y = Math.max(24, 72 * 0.55) = 39.6`). -/
def headerLines (bg root : String) : List String :=
  ["<?xml version=\"1.0\" encoding=\"UTF-8\"?>",
   "<svg xmlns=\"http://www.w3.org/2000/svg\" width=\"1100\" height=\"900\" viewBox=\"0 0 1100 900\">",
   "  <rect width=\"1100\" height=\"900\" fill=\"" ++ bg ++ "\" />",
   "  <text x=\"24\" y=\"39.6\" font-family=\"sans-serif\" font-size=\"18\" fill=\"#333\">",
   "    " ++ escapeXml root,
   "  </text>",
   "  <g transform=\"translate(24,72)\">"]

/-- The full line list of the document, in emission order: header, then
all circles, then file labels, then the directory label chunks sorted by
`(a, b) => b.r - a.r`, then the closing of the packed group, the legend
and the closing tag. -/
def svgLinesOf (M : JsMath) (root : String) (opts : Options)
    (packed : PNode) : List String :=
  let scheme := pickD3Scheme (some opts.palette)
  let L := renderLayers opts.extColors scheme M packed
  headerLines opts.bgColor root
    ++ L.circles
    ++ L.fileLabels
    ++ (sortDirLabels L.dirLabels).map Prod.snd
    ++ ["  </g>", ""]
    ++ legendLines (legendSort L.cs.extMap)
    ++ ["</svg>", ""]

/-- `renderSvgFromSnapshot`'s return value: the lines joined by
newlines. -/
def renderSvg (M : JsMath) (root : String) (opts : Options)
    (packed : PNode) : String :=
  String.intercalate "\n" (svgLinesOf M root opts packed)

/-- The ambient state a JavaScript run could observe but this renderer
never touches: wall-clock time and any source of randomness.  The
renderer body contains no reference to it. -/
structure Env where
  wallClock : String
  entropy : ℕ

/-- One run of `renderSvgFromSnapshot(snapshot, options)` in environment
`env`, with the packed layout (produced deterministically from the
snapshot by the external `pack` layout) threaded explicitly.  The body
ignores `env`: the function reads nothing but its declared inputs. -/
def renderRun (env : Env) (M : JsMath) (snap : Snapshot) (opts : Options)
    (packed : PNode) : String :=
  renderSvg M snap.meta.root opts packed

/-- The extensions of the file nodes among a list of visited entries, in
visit order. -/
def extsOfEntries (l : List Entry) : List String :=
  l.filterMap (fun e =>
    match e.2 with
    | .file _ ext _ _ _ => some ext
    | .dir _ _ _ _ _ => none)

/-- The extensions of all file nodes the loop visits (every one of them
receives a fill colour in the file layer). -/
def fileExtsOf (packed : PNode) : List String := extsOfEntries (bfsList packed)

/-- The legend entry list of a render: the `extColorMap` cache accumulated
by the traversal, sorted the way the source sorts it.  This is exactly
the `entries` array the legend group iterates over, as assembled inside
`svgLinesOf`. -/
def legendOf (M : JsMath) (opts : Options) (packed : PNode) :
    List (String × String) :=
  legendSort (renderLayers opts.extColors (pickD3Scheme (some opts.palette))
    M packed).cs.extMap

/-- Every string the document embeds as text-node content: the title (the
snapshot's root path), the name of every labelled node, and the legend's
extension labels — each as it appears in the output, i.e. after
`escapeXml`. -/
def textContentsOf (M : JsMath) (root : String) (opts : Options)
    (packed : PNode) : List String :=
  [escapeXml root]
    ++ (bfsList packed).filterMap (fun e =>
        match e.2 with
        | .dir name _ _ r _ => if r > 12 then some (escapeXml name) else none
        | .file name _ _ _ r => if r > 12 then some (escapeXml name) else none)
    ++ (legendSort (renderLayers opts.extColors
          (pickD3Scheme (some opts.palette)) M packed).cs.extMap).map
        (fun p => escapeXml p.1)

/-- Entity bodies that may legitimately follow an ampersand in escaped
output. -/
def entityTails : List (List Char) :=
  ["lt;".data, "gt;".data, "amp;".data, "quot;".data, "#39;".data]

/-- Every ampersand in the character list starts one of the five
entities. -/
def ampOk : List Char → Bool
  | [] => true
  | c :: rest =>
    (c != '&' || entityTails.any (fun t => t.isPrefixOf rest)) && ampOk rest

/-- A string is fully escaped for the five reserved markup characters:
none of `<`, `>`, `"`, `'` occurs raw, and every `&` begins one of the
five entities. -/
def escapedOk (s : String) : Bool :=
  s.data.all (fun c => c != '<' && c != '>' && c != '"' && c != '\'')
    && ampOk s.data

/- ----------------------------------------------------------------- -/
/- Concrete instances used by witnesses and counterexamples.          -/

/-- A concrete runtime instance: numbers stringified via `fmt`, the two
trigonometric functions stubbed (no claim depends on their values). -/
def fmtM : JsMath := ⟨fmt, fun _ => 0, fun _ => 0⟩

/-- Options with one extension override (`--ext-colors ".ts=#3178c6"`). -/
def cexOpts1 : Options := ⟨"#ffffff", "default", [(".ts", "#3178c6")]⟩

/-- A packed layout of one root directory holding three small files: one
with the overridden extension `.ts`, and two whose extensions `.t!` and
`.t` exercise the legend's pair-string sort. -/
def cexPacked1 : PNode :=
  .dir "root" 500 450 400
    (.cons (.file "a.ts" ".ts" 100 100 30)
      (.cons (.file "b.t!" ".t!" 200 200 30)
        (.cons (.file "c.t" ".t" 300 300 30) .nil)))

/-- Options with no overrides. -/
def cexOpts2 : Options := ⟨"#ffffff", "default", []⟩

/-- A packed layout with two labelled directories of different radii and
one labelled file. -/
def cexPacked2 : PNode :=
  .dir "root" 500 450 400
    (.cons (.dir "big" 300 300 50 .nil)
      (.cons (.dir "small" 100 100 20 .nil)
        (.cons (.file "f.ts" ".ts" 200 200 30) .nil)))

/-- A packed layout consisting of a single root file (the loop then visits
nothing, since the root is skipped). -/
def cexPackedLone : PNode := .file "w" "" 0 0 1

/-- A three-leaf tree with distinct byte sizes, for the weight-model
witnesses. -/
def cexTree : TreeNode :=
  .dir "root"
    (.cons (.file "a.ts" 10 ".ts")
      (.cons (.file "b.md" 10000 ".md")
        (.cons (.file "c" 0 "") .nil)))

/- ================================================================= -/
/- Theorems.                                                          -/
/- ================================================================= -/

theorem clamp_le_right (lo hi v : ℚ) (h : lo ≤ hi) : clamp lo hi v ≤ hi :=
  max_le h (min_le_left _ _)

theorem le_clamp_left (lo hi v : ℚ) : lo ≤ clamp lo hi v := le_max_left _ _

theorem ampOk_entity (c : Char) (rest : List Char) (h : ampOk rest = true) :
    ampOk (escChar c ++ rest) = true := by
  by_cases h1 : c = '<'
  · subst h1; simp [escChar, ampOk, entityTails, List.isPrefixOf, h]
  · by_cases h2 : c = '>'
    · subst h2; simp [escChar, ampOk, entityTails, List.isPrefixOf, h1, h]
    · by_cases h3 : c = '&'
      · subst h3; simp [escChar, ampOk, entityTails, List.isPrefixOf, h1, h2, h]
      · by_cases h4 : c = '"'
        · subst h4
          simp [escChar, ampOk, entityTails, List.isPrefixOf, h1, h2, h3, h]
        · by_cases h5 : c = '\''
          · subst h5
            simp [escChar, ampOk, entityTails, List.isPrefixOf, h1, h2, h3,
              h4, h]
          · simp [escChar, ampOk, h1, h2, h3, h4, h5, h]

theorem escapedOk_escapeXml (s : String) : escapedOk (escapeXml s) = true := by
  have key : ∀ l : List Char,
      ((l.flatMap escChar).all
          (fun c => c != '<' && c != '>' && c != '"' && c != '\'')
        && ampOk (l.flatMap escChar)) = true := by
    intro l
    induction l with
    | nil => decide
    | cons c cs ih =>
      rw [List.flatMap_cons, List.all_append]
      rw [Bool.and_eq_true] at ih ⊢
      refine ⟨?_, ampOk_entity c _ ih.2⟩
      rw [Bool.and_eq_true]
      refine ⟨?_, ih.1⟩
      by_cases h1 : c = '<'
      · subst h1; decide
      · by_cases h2 : c = '>'
        · subst h2; decide
        · by_cases h3 : c = '&'
          · subst h3; decide
          · by_cases h4 : c = '"'
            · subst h4; decide
            · by_cases h5 : c = '\''
              · subst h5; decide
              · simp [escChar, h1, h2, h3, h4, h5]
  exact key s.data

/-- Claim C10: palette selection is total and case-insensitive — for every
name (and for an absent one) `pickD3Scheme` returns one of the ten fixed
schemes; names agreeing after lower-casing select the same scheme; and
any name whose lower-casing is not among the ten recognised names —
including the default option value "default" — yields `schemeTableau10`
rather than an error. -/
theorem claim10_pickD3Scheme_total :
    (∀ name : Option String, pickD3Scheme name ∈ allSchemes) ∧
    pickD3Scheme none = schemeTableau10 ∧
    pickD3Scheme (some "default") = schemeTableau10 ∧
    (∀ s t : String, jsToLower s = jsToLower t →
      pickD3Scheme (some s) = pickD3Scheme (some t)) ∧
    (∀ s : String, jsToLower s ∉ recognizedNames →
      pickD3Scheme (some s) = schemeTableau10) := by
  refine ⟨?_, ?_, ?_, ?_, ?_⟩
  · intro name
    simp only [pickD3Scheme, pickByKey]
    split_ifs <;> simp [allSchemes]
  · decide
  · decide
  · intro s t h
    simp only [pickD3Scheme, Option.getD_some]
    exact congrArg pickByKey h
  · intro s h
    simp only [recognizedNames, List.mem_cons, List.not_mem_nil, or_false,
      not_or] at h
    obtain ⟨n1, n2, n3, n4, n5, n6, n7, n8, n9, n10⟩ := h
    show pickByKey (jsToLower s) = schemeTableau10
    unfold pickByKey
    split_ifs
    rfl

/-- Witness for C10: a concrete unrecognised name falls back to
`schemeTableau10`. -/
theorem claim10_witness : pickD3Scheme (some "Viridis") = schemeTableau10 :=
  claim10_pickD3Scheme_total.2.2.2.2 "Viridis" (by decide)

/-- Claim C7: rendering is deterministic — two runs in arbitrary (and
arbitrarily different) ambient environments, on the same snapshot,
options and packed layout, return the identical document string.  The
renderer is a pure function of its declared inputs; it never reads the
environment. -/
theorem claim7_deterministic (e1 e2 : Env) (M : JsMath) (snap : Snapshot)
    (opts : Options) (packed : PNode) :
    renderRun e1 M snap opts packed = renderRun e2 M snap opts packed := rfl

/-- Claim C5 (amended): a file whose non-empty extension maps to a
non-empty (truthy) colour string in the override record receives exactly
that override from `colorForFile`, and the colour state — in particular
the ordinal scale's dynamically grown key domain — is left completely
unchanged, so no palette colour is cycled onto that extension. -/
theorem claim5_override_permanent (extColors : List (String × String))
    (scheme : List String) (st : ColorState) (ext name c : String)
    (h1 : ext ≠ "") (h2 : mapGet extColors ext = some c) (h3 : c ≠ "") :
    colorForFile extColors scheme st ext name = (c, st) := by
  unfold colorForFile
  simp [h1, h2, h3]

/-- Witness for C5: a concrete overridden extension. -/
theorem claim5_witness :
    colorForFile [(".ts", "#3178c6")] schemeTableau10 ⟨[], []⟩ ".ts" "a.ts"
      = ("#3178c6", ⟨[], []⟩) :=
  claim5_override_permanent [(".ts", "#3178c6")] schemeTableau10 ⟨[], []⟩
    ".ts" "a.ts" "#3178c6" (by decide) (by decide) (by decide)

/-- Counterexample for C5 as stated: an extension that is *present* in the
override record but with the empty string as colour is skipped by the
JavaScript truthiness test `options.extColors[ext]`, so the file falls
through to the palette path — it does not receive the override, and the
palette's key domain grows. -/
theorem claim5_counterexample :
    mapGet [(".ts", "")] ".ts" = some "" ∧
    (colorForFile [(".ts", "")] schemeTableau10 ⟨[], []⟩ ".ts" "a.ts").1
      = "#4e79a7" ∧
    (colorForFile [(".ts", "")] schemeTableau10 ⟨[], []⟩ ".ts" "a.ts").2.domain
      = [".ts"] := by
  exact ⟨by decide, by decide, by decide⟩

/-- Claim C8: every piece of text content embedded in the document — the
title root path, the name of every labelled file or directory, and the
legend extension strings — is escaped for all five reserved markup
characters before embedding: no raw `<`, `>`, `"` or `'` remains, and
every `&` starts one of the five entities. -/
theorem claim8_text_escaped (M : JsMath) (root : String) (opts : Options)
    (packed : PNode) (t : String)
    (ht : t ∈ textContentsOf M root opts packed) : escapedOk t = true := by
  unfold textContentsOf at ht
  rcases List.mem_append.1 ht with h | h
  · rcases List.mem_append.1 h with h | h
    · rcases List.mem_singleton.1 h with rfl
      exact escapedOk_escapeXml root
    · obtain ⟨⟨anc, node⟩, -, he⟩ := List.mem_filterMap.1 h
      cases node with
      | dir name x y r cs =>
        by_cases hr : r > 12
        · simp only [hr, if_true] at he
          injection he with he
          rw [← he]
          exact escapedOk_escapeXml name
        · simp [hr] at he
      | file name ext x y r =>
        by_cases hr : r > 12
        · simp only [hr, if_true] at he
          injection he with he
          rw [← he]
          exact escapedOk_escapeXml name
        · simp [hr] at he
  · obtain ⟨p, -, rfl⟩ := List.mem_map.1 h
    exact escapedOk_escapeXml p.1

/-- Witness for C8 at a concrete render: the escaped title of a snapshot
whose root path contains three of the reserved characters. -/
theorem claim8_witness : escapedOk (escapeXml "x&y<z>") = true :=
  claim8_text_escaped fmtM "x&y<z>" cexOpts2 cexPackedLone
    (escapeXml "x&y<z>") (by decide)

/-- Claim C9: for a file node, a text label carrying the file's name is
emitted exactly when the packed radius exceeds 12 layout units; the label
is white (`fill="#fff"`) and its font size `clamp(8, 13, r / 3.5)` lies in
`[8, 13]`; at or below the threshold the file contributes only its
coloured circle — no text. -/
theorem claim9_file_label_iff (extColors : List (String × String))
    (scheme : List String) (M : JsMath) (acc : Layers) (anc : List String)
    (name ext : String) (x y r : ℚ) :
    (r > 12 →
      processNode extColors scheme M acc (anc, .file name ext x y r) =
        ⟨acc.circles
            ++ [circleLine x y r
                  (colorForFile extColors scheme acc.cs ext name).1],
          acc.fileLabels ++ [fileLabelLine M x y r name],
          acc.dirLabels,
          (colorForFile extColors scheme acc.cs ext name).2⟩ ∧
      8 ≤ fileFontSize r ∧ fileFontSize r ≤ 13 ∧
      "\" fill=\"#fff\">".data <:+: (fileLabelLine M x y r name).data) ∧
    (¬ r > 12 →
      processNode extColors scheme M acc (anc, .file name ext x y r) =
        ⟨acc.circles
            ++ [circleLine x y r
                  (colorForFile extColors scheme acc.cs ext name).1],
          acc.fileLabels, acc.dirLabels,
          (colorForFile extColors scheme acc.cs ext name).2⟩) := by
  constructor
  · intro hr
    refine ⟨by simp [processNode, hr], le_clamp_left _ _ _,
      clamp_le_right _ _ _ (by norm_num), ?_⟩
    refine ⟨("    <text x=\"" ++ fmt x ++ "\" y=\"" ++ fmt y
        ++ "\" text-anchor=\"middle\" dominant-baseline=\"middle\""
        ++ " font-family=\"sans-serif\" font-size=\""
        ++ M.numToString (fileFontSize r)).data,
      (escapeXml name ++ "</text>").data, ?_⟩
    simp [fileLabelLine, String.data_append, List.append_assoc]
  · intro hr
    simp [processNode, hr]

/-- Witness for C9: a file of radius 30 gets its label appended and the
font-size bounds hold; a file of radius 5 leaves the label layer
untouched. -/
theorem claim9_witness :
    (processNode [] schemeTableau10 fmtM initLayers
        (["root"], .file "f.ts" ".ts" 200 200 30)).fileLabels
      = [fileLabelLine fmtM 200 200 30 "f.ts"] ∧
    8 ≤ fileFontSize 30 ∧ fileFontSize 30 ≤ 13 ∧
    (processNode [] schemeTableau10 fmtM initLayers
        (["root"], .file "g.ts" ".ts" 7 7 5)).fileLabels = [] := by
  have h1 := (claim9_file_label_iff [] schemeTableau10 fmtM initLayers
    ["root"] "f.ts" ".ts" 200 200 30).1 (by decide)
  have h2 := (claim9_file_label_iff [] schemeTableau10 fmtM initLayers
    ["root"] "g.ts" ".ts" 7 7 5).2 (by decide)
  refine ⟨?_, h1.2.1, h1.2.2.1, ?_⟩
  · rw [h1.1]; rfl
  · rw [h2]; rfl

/-- Claim C4: for a directory with packed radius above 12, the rim is a
circle stroke with dash array `(dashLeft, gap, dashLeft)` where
`dashLeft = (C - gap) / 2` for `C = 2 * Math.PI * r` (no truncation by
the `Math.max(C - gap, 0)` guard occurs), the gap is clamped into
`[10, 0.45 * C]`, the arc-length midpoint of the single gap sits half
the circumference away from the stroke start so that the emitted quarter
turn `rotate(90 x y)` centres it at 12 o'clock where the label path
lies; a directory at or below radius 12 gets only its white fill — no
rim gap, no label. -/
theorem claim4_dir_rim (extColors : List (String × String))
    (scheme : List String) (M : JsMath) (acc : Layers) (anc : List String)
    (name : String) (x y r : ℚ) (cs : PForest) :
    (r > 12 →
      processNode extColors scheme M acc (anc, .dir name x y r cs) =
        ⟨acc.circles ++ [circleLine x y r "#fff"]
            ++ [dirStrokeOpen x y r, dirStrokeStyle, dirDashLine name r,
                dirRotateLine x y],
          acc.fileLabels,
          acc.dirLabels ++ [(r, dirLabelChunk M anc name x y r)],
          acc.cs⟩ ∧
      dirDashLeft name r = (circumference r - dirGapClamped name r) / 2 ∧
      10 ≤ dirGapClamped name r ∧
      dirGapClamped name r ≤ circumference r * (45/100) ∧
      dirDashLeft name r + dirGapClamped name r / 2 = circumference r / 2) ∧
    (¬ r > 12 →
      processNode extColors scheme M acc (anc, .dir name x y r cs) =
        ⟨acc.circles ++ [circleLine x y r "#fff"], acc.fileLabels,
          acc.dirLabels, acc.cs⟩) := by
  have hpi : (3 : ℚ) ≤ jsPI := by norm_num [jsPI]
  constructor
  · intro hr
    have hC : (10 : ℚ) ≤ circumference r * (45/100) := by
      unfold circumference
      nlinarith
    have hgap : dirGapClamped name r ≤ circumference r * (45/100) := by
      unfold dirGapClamped
      rw [max_eq_left hC]
      exact min_le_right _ _
    have hge : (10 : ℚ) ≤ dirGapClamped name r := by
      unfold dirGapClamped
      exact le_min (le_max_right _ _) (le_max_right _ _)
    have hCpos : (0 : ℚ) < circumference r := by
      unfold circumference
      nlinarith
    have hdash : dirDash name r = circumference r - dirGapClamped name r := by
      unfold dirDash
      rw [max_eq_left]
      nlinarith
    refine ⟨by simp [processNode, dirStrokeLines, hr], ?_, hge, hgap, ?_⟩
    · unfold dirDashLeft
      rw [hdash]
    · unfold dirDashLeft
      rw [hdash]
      ring
  · intro hr
    simp [processNode, hr]

/-- Witness for C4: the concrete directory of radius 50 emits the rim
stroke and satisfies the gap bounds and the centring identity, while the
radius-20... radius-5 directory emits only its fill. -/
theorem claim4_witness :
    (processNode [] schemeTableau10 fmtM initLayers
        (["root"], .dir "big" 300 300 50 .nil)).dirLabels
      = [(50, dirLabelChunk fmtM ["root"] "big" 300 300 50)] ∧
    10 ≤ dirGapClamped "big" 50 ∧
    dirGapClamped "big" 50 ≤ circumference 50 * (45/100) ∧
    dirDashLeft "big" 50 + dirGapClamped "big" 50 / 2 = circumference 50 / 2 ∧
    (processNode [] schemeTableau10 fmtM initLayers
        (["root"], .dir "tiny" 5 5 5 .nil)).dirLabels = [] := by
  have h1 := (claim4_dir_rim [] schemeTableau10 fmtM initLayers ["root"]
    "big" 300 300 50 .nil).1 (by decide)
  have h2 := (claim4_dir_rim [] schemeTableau10 fmtM initLayers ["root"]
    "tiny" 5 5 5 .nil).2 (by decide)
  refine ⟨?_, h1.2.2.1, h1.2.2.2.1, h1.2.2.2.2, ?_⟩
  · rw [h1.1]; rfl
  · rw [h2]; rfl

theorem lexLe_total (x y : List Char) : lexLe x y = true ∨ lexLe y x = true := by
  induction x generalizing y with
  | nil => left; rfl
  | cons a as ih =>
    cases y with
    | nil => right; rfl
    | cons b bs =>
      by_cases h1 : a.toNat < b.toNat
      · left; simp [lexLe, h1]
      · by_cases h2 : b.toNat < a.toNat
        · right; simp [lexLe, h2]
        · rcases ih bs with h | h
          · left; simp [lexLe, h1, h2, h]
          · right; simp [lexLe, h1, h2, h]

theorem lexLe_trans (x y z : List Char) (hxy : lexLe x y = true)
    (hyz : lexLe y z = true) : lexLe x z = true := by
  induction x generalizing y z with
  | nil => rfl
  | cons a as ih =>
    cases y with
    | nil => simp [lexLe] at hxy
    | cons b bs =>
      cases z with
      | nil => simp [lexLe] at hyz
      | cons c cs =>
        simp only [lexLe] at hxy hyz ⊢
        by_cases h1 : a.toNat < b.toNat
        · by_cases h2 : b.toNat < c.toNat
          · have h3 : a.toNat < c.toNat := Nat.lt_trans h1 h2
            simp [h3]
          · by_cases h3 : c.toNat < b.toNat
            · rw [if_neg h2, if_pos h3] at hyz
              exact absurd hyz (by simp)
            · have h4 : a.toNat < c.toNat := by omega
              simp [h4]
        · by_cases h2 : b.toNat < a.toNat
          · rw [if_neg h1, if_pos h2] at hxy
            exact absurd hxy (by simp)
          · rw [if_neg h1, if_neg h2] at hxy
            by_cases h3 : b.toNat < c.toNat
            · have h4 : a.toNat < c.toNat := by omega
              simp [h4]
            · by_cases h4 : c.toNat < b.toNat
              · rw [if_neg h3, if_pos h4] at hyz
                exact absurd hyz (by simp)
              · rw [if_neg h3, if_neg h4] at hyz
                have h5 : ¬ a.toNat < c.toNat := by omega
                have h6 : ¬ c.toNat < a.toNat := by omega
                rw [if_neg h5, if_neg h6]
                exact ih bs cs hxy hyz

/-- Claim C2 (amended): in the serialized document the directory label
chunks come after all file labels, and they are ordered so that a
directory with larger radius is emitted *earlier* (draws below) than
every directory with smaller radius — the stable sort under
`(a, b) => b.r - a.r` puts larger radii first, keeping the labels of
nested smaller directories on top, as the source comment intends. -/
theorem claim2_label_order (M : JsMath) (root : String) (opts : Options)
    (packed : PNode) :
    (∃ pre post : List String,
      svgLinesOf M root opts packed =
        pre
          ++ (renderLayers opts.extColors (pickD3Scheme (some opts.palette))
                M packed).fileLabels
          ++ (sortDirLabels
                (renderLayers opts.extColors (pickD3Scheme (some opts.palette))
                  M packed).dirLabels).map Prod.snd
          ++ post) ∧
    List.Sorted (fun a b : ℚ × String => b.1 ≤ a.1)
      (sortDirLabels
        (renderLayers opts.extColors (pickD3Scheme (some opts.palette))
          M packed).dirLabels) := by
  constructor
  · refine ⟨headerLines opts.bgColor root
        ++ (renderLayers opts.extColors (pickD3Scheme (some opts.palette))
              M packed).circles,
      ["  </g>", ""]
        ++ legendLines (legendSort
            (renderLayers opts.extColors (pickD3Scheme (some opts.palette))
              M packed).cs.extMap)
        ++ ["</svg>", ""], ?_⟩
    simp [svgLinesOf, List.append_assoc]
  · haveI : IsTotal (ℚ × String) (fun a b => b.1 ≤ a.1) :=
      ⟨fun a b => le_total b.1 a.1⟩
    haveI : IsTrans (ℚ × String) (fun a b => b.1 ≤ a.1) :=
      ⟨fun _ _ _ h1 h2 => le_trans h2 h1⟩
    exact List.sorted_insertionSort _ _

/-- Counterexample for C2 as stated: in the concrete render of
`cexPacked2`, the rim-stroke dash line of directory "big" appears at
line 10 of the document — before the file label at line 18 (rim strokes
are pushed to the circle layer, which precedes the file-label layer) —
and the directory label chunks are sorted `[50, 20]`: the larger radius
is emitted first, not last. -/
theorem claim2_counterexample :
    (svgLinesOf fmtM "/tmp/demo" cexOpts2 cexPacked2).get? 10
        = some (dirDashLine "big" 50) ∧
    (svgLinesOf fmtM "/tmp/demo" cexOpts2 cexPacked2).get? 18
        = some (fileLabelLine fmtM 200 200 30 "f.ts") ∧
    (10 : ℕ) < 18 ∧
    (sortDirLabels (renderLayers cexOpts2.extColors
        (pickD3Scheme (some cexOpts2.palette)) fmtM cexPacked2).dirLabels).map
        Prod.fst = [50, 20] ∧
    (20 : ℚ) < 50 := by
  refine ⟨rfl, rfl, by norm_num, by rfl, by decide⟩

theorem mem_mapSet_keys (m : List (String × String)) (k v e : String) :
    e ∈ (mapSet m k v).map Prod.fst ↔ e ∈ m.map Prod.fst ∨ e = k := by
  induction m with
  | nil => simp [mapSet]
  | cons p rest ih =>
    rcases p with ⟨k', v'⟩
    by_cases h : k' = k
    · subst h
      simp [mapSet]
      tauto
    · simp only [mapSet, if_neg h, List.map_cons, List.mem_cons, ih]
      tauto

theorem nodup_mapSet_keys (m : List (String × String)) (k v : String)
    (h : (m.map Prod.fst).Nodup) : ((mapSet m k v).map Prod.fst).Nodup := by
  induction m with
  | nil => simp [mapSet]
  | cons p rest ih =>
    rcases p with ⟨k', v'⟩
    simp only [List.map_cons, List.nodup_cons] at h
    by_cases hk : k' = k
    · subst hk
      simpa [mapSet] using h
    · simp only [mapSet, if_neg hk, List.map_cons, List.nodup_cons]
      refine ⟨?_, ih h.2⟩
      intro hc
      rcases (mem_mapSet_keys rest k v k').1 hc with h' | h'
      · exact h.1 h'
      · exact hk h'

theorem colorForFile_eq_palette (extColors : List (String × String))
    (scheme : List String) (st : ColorState) (ext name : String)
    (h : overrideTruthy extColors ext = false ∨ ext = "") :
    colorForFile extColors scheme st ext name =
      paletteAssign scheme st ext name := by
  unfold colorForFile
  rcases h with h | h
  · by_cases h1 : ext = ""
    · simp [h1]
    · cases hm : mapGet extColors ext with
      | none => simp [h1, hm]
      | some c =>
        rw [overrideTruthy, hm] at h
        simp only [bne_eq_false_iff_eq] at h
        simp [h1, hm, h]
  · simp [h]

theorem colorForFile_eq_override (extColors : List (String × String))
    (scheme : List String) (st : ColorState) (ext name c : String)
    (h1 : ext ≠ "") (hm : mapGet extColors ext = some c) (hc : c ≠ "") :
    colorForFile extColors scheme st ext name = (c, st) := by
  unfold colorForFile
  simp [h1, hm, hc]

theorem paletteAssign_extMap (scheme : List String) (st : ColorState)
    (ext name : String) (h : ext ≠ "") :
    (paletteAssign scheme st ext name).2.extMap =
      mapSet st.extMap ext (ordinalColor scheme st.domain ext).1 := by
  simp [paletteAssign, h]

theorem overrideTruthy_true_elim (extColors : List (String × String))
    (ext : String) (h : overrideTruthy extColors ext = true) :
    ∃ c, mapGet extColors ext = some c ∧ c ≠ "" := by
  unfold overrideTruthy at h
  cases hm : mapGet extColors ext with
  | none => rw [hm] at h; exact absurd h (by simp)
  | some c =>
    rw [hm] at h
    refine ⟨c, rfl, ?_⟩
    simpa using h

theorem colorForFile_extMap_mem (extColors : List (String × String))
    (scheme : List String) (st : ColorState) (ext name e : String) :
    e ∈ ((colorForFile extColors scheme st ext name).2.extMap.map Prod.fst) ↔
      (e ∈ st.extMap.map Prod.fst ∨
        (e = ext ∧ e ≠ "" ∧ overrideTruthy extColors e = false)) := by
  by_cases h1 : ext = ""
  · subst h1
    rw [colorForFile_eq_palette extColors scheme st "" name (Or.inr rfl)]
    have hP : (paletteAssign scheme st "" name).2.extMap = st.extMap := by
      simp [paletteAssign]
    rw [hP]
    constructor
    · exact Or.inl
    · rintro (h | ⟨ha, hb, -⟩)
      · exact h
      · exact absurd ha hb
  · cases ht : overrideTruthy extColors ext with
    | false =>
      rw [colorForFile_eq_palette extColors scheme st ext name (Or.inl ht),
        paletteAssign_extMap scheme st ext name h1, mem_mapSet_keys]
      constructor
      · rintro (h | rfl)
        · exact Or.inl h
        · exact Or.inr ⟨rfl, h1, ht⟩
      · rintro (h | ⟨rfl, -, -⟩)
        · exact Or.inl h
        · exact Or.inr rfl
    | true =>
      obtain ⟨c, hm, hc⟩ := overrideTruthy_true_elim extColors ext ht
      rw [colorForFile_eq_override extColors scheme st ext name c h1 hm hc]
      constructor
      · exact Or.inl
      · rintro (h | ⟨rfl, -, hf⟩)
        · exact h
        · rw [ht] at hf
          exact absurd hf (by simp)

theorem colorForFile_extMap_nodup (extColors : List (String × String))
    (scheme : List String) (st : ColorState) (ext name : String)
    (h : (st.extMap.map Prod.fst).Nodup) :
    (((colorForFile extColors scheme st ext name).2.extMap.map
        Prod.fst)).Nodup := by
  by_cases h1 : ext = ""
  · subst h1
    rw [colorForFile_eq_palette extColors scheme st "" name (Or.inr rfl)]
    have hP : (paletteAssign scheme st "" name).2.extMap = st.extMap := by
      simp [paletteAssign]
    rw [hP]
    exact h
  · cases ht : overrideTruthy extColors ext with
    | false =>
      rw [colorForFile_eq_palette extColors scheme st ext name (Or.inl ht),
        paletteAssign_extMap scheme st ext name h1]
      exact nodup_mapSet_keys _ _ _ h
    | true =>
      obtain ⟨c, hm, hc⟩ := overrideTruthy_true_elim extColors ext ht
      rw [colorForFile_eq_override extColors scheme st ext name c h1 hm hc]
      exact h

theorem processNode_cs_dir (extColors : List (String × String))
    (scheme : List String) (M : JsMath) (acc : Layers) (anc : List String)
    (name : String) (x y r : ℚ) (cs : PForest) :
    (processNode extColors scheme M acc (anc, .dir name x y r cs)).cs
      = acc.cs := by
  by_cases hr : r > 12 <;> simp [processNode, hr]

theorem processNode_cs_file (extColors : List (String × String))
    (scheme : List String) (M : JsMath) (acc : Layers) (anc : List String)
    (name ext : String) (x y r : ℚ) :
    (processNode extColors scheme M acc (anc, .file name ext x y r)).cs
      = (colorForFile extColors scheme acc.cs ext name).2 := by
  by_cases hr : r > 12 <;> simp [processNode, hr]

theorem foldl_extMap_mem (extColors : List (String × String))
    (scheme : List String) (M : JsMath) (l : List Entry) :
    ∀ (acc : Layers) (e : String),
      e ∈ ((l.foldl (processNode extColors scheme M) acc).cs.extMap.map
          Prod.fst) ↔
        (e ∈ acc.cs.extMap.map Prod.fst ∨
          (e ∈ extsOfEntries l ∧ e ≠ "" ∧
            overrideTruthy extColors e = false)) := by
  induction l with
  | nil =>
    intro acc e
    simp [extsOfEntries]
  | cons v rest ih =>
    intro acc e
    rw [List.foldl_cons, ih]
    rcases v with ⟨anc, node⟩
    cases node with
    | dir name x y r cs =>
      rw [processNode_cs_dir]
      have hx : extsOfEntries ((anc, PNode.dir name x y r cs) :: rest)
          = extsOfEntries rest := by
        simp [extsOfEntries]
      rw [hx]
    | file name ext x y r =>
      rw [processNode_cs_file, colorForFile_extMap_mem]
      have hx : extsOfEntries ((anc, PNode.file name ext x y r) :: rest)
          = ext :: extsOfEntries rest := by
        simp [extsOfEntries]
      rw [hx]
      simp only [List.mem_cons]
      constructor
      · rintro ((h | ⟨rfl, hne, hf⟩) | ⟨hm, hne, hf⟩)
        · exact Or.inl h
        · exact Or.inr ⟨Or.inl rfl, hne, hf⟩
        · exact Or.inr ⟨Or.inr hm, hne, hf⟩
      · rintro (h | ⟨rfl | hm, hne, hf⟩)
        · exact Or.inl (Or.inl h)
        · exact Or.inl (Or.inr ⟨rfl, hne, hf⟩)
        · exact Or.inr ⟨hm, hne, hf⟩

theorem foldl_extMap_nodup (extColors : List (String × String))
    (scheme : List String) (M : JsMath) (l : List Entry) :
    ∀ acc : Layers, (acc.cs.extMap.map Prod.fst).Nodup →
      ((l.foldl (processNode extColors scheme M) acc).cs.extMap.map
        Prod.fst).Nodup := by
  induction l with
  | nil =>
    intro acc h
    simpa using h
  | cons v rest ih =>
    intro acc h
    rw [List.foldl_cons]
    apply ih
    rcases v with ⟨anc, node⟩
    cases node with
    | dir name x y r cs =>
      rw [processNode_cs_dir]
      exact h
    | file name ext x y r =>
      rw [processNode_cs_file]
      exact colorForFile_extMap_nodup _ _ _ _ _ h

/-- Claim C1 (amended): the legend lists exactly the extensions that were
assigned a colour through the palette path — the non-empty extensions of
rendered files without a truthy override — each exactly once; extensions
with an override (and extensionless files) do not appear.  The entries
are sorted ascending under the default array sort, which compares the
comma-joined `ext,color` strings; this is ascending extension order
except when a legend extension extends another by a character below
`','`. -/
theorem claim1_legend_palette_exts (M : JsMath) (opts : Options)
    (packed : PNode) :
    ((legendOf M opts packed).map Prod.fst).Nodup ∧
    List.Sorted (fun a b : String × String =>
      lexLe (pairKey a).data (pairKey b).data = true)
      (legendOf M opts packed) ∧
    (∀ e : String, e ∈ (legendOf M opts packed).map Prod.fst ↔
      (e ∈ fileExtsOf packed ∧ e ≠ "" ∧
        overrideTruthy opts.extColors e = false)) := by
  have hperm : (legendOf M opts packed).Perm
      (renderLayers opts.extColors (pickD3Scheme (some opts.palette))
        M packed).cs.extMap :=
    List.perm_insertionSort _ _
  have hini : ((initLayers.cs.extMap).map Prod.fst).Nodup := by
    simp [initLayers]
  have hnodup := foldl_extMap_nodup opts.extColors
    (pickD3Scheme (some opts.palette)) M (bfsList packed) initLayers hini
  refine ⟨?_, ?_, ?_⟩
  · exact ((hperm.map Prod.fst).nodup_iff).2 hnodup
  · haveI : IsTotal (String × String) (fun a b =>
        lexLe (pairKey a).data (pairKey b).data = true) :=
      ⟨fun a b => lexLe_total (pairKey a).data (pairKey b).data⟩
    haveI : IsTrans (String × String) (fun a b =>
        lexLe (pairKey a).data (pairKey b).data = true) :=
      ⟨fun a b c h1 h2 => lexLe_trans _ _ _ h1 h2⟩
    exact List.sorted_insertionSort _ _
  · intro e
    rw [List.Perm.mem_iff (hperm.map Prod.fst)]
    simp only [renderLayers]
    rw [foldl_extMap_mem opts.extColors (pickD3Scheme (some opts.palette)) M
      (bfsList packed) initLayers e]
    simp only [initLayers, List.map_nil, List.not_mem_nil, false_or]
    exact Iff.rfl

/-- Counterexample for C1 as stated: in the concrete render of
`cexPacked1` with override `.ts=#3178c6`, the extension `.ts` appears as
a fill colour in the file layer (its file is rendered with the override
colour) yet does not appear in the legend; moreover the legend comes out
as `[".t!", ".t"]`, which is not ascending by extension string, since
`".t" < ".t!"`. -/
theorem claim1_counterexample :
    ".ts" ∈ fileExtsOf cexPacked1 ∧
    ".ts" ∉ (legendOf fmtM cexOpts1 cexPacked1).map Prod.fst ∧
    (legendOf fmtM cexOpts1 cexPacked1).map Prod.fst = [".t!", ".t"] ∧
    lexLe ".t".data ".t!".data = true ∧ ".t" ≠ ".t!" := by
  refine ⟨by decide, by decide, by decide, by decide, by decide⟩

theorem sizeP_pos (p : PNode) : 1 ≤ sizeP p := by
  cases p <;> simp [sizeP]

theorem sum_childList_sizeP : ∀ cs : PForest,
    ((childList cs).map sizeP).sum = sizeF cs
  | .nil => by rfl
  | .cons h t => by simp [childList, sizeF, sum_childList_sizeP t]

theorem frontW_childEntries_lt (anc : List String) (n : PNode) :
    frontW (childEntries anc n) < sizeP n := by
  cases n with
  | file a b c d e => simp [childEntries, frontW, sizeP]
  | dir name x y r cs =>
    have h : frontW (childEntries anc (.dir name x y r cs)) = sizeF cs := by
      simp only [childEntries, frontW, List.map_map]
      exact sum_childList_sizeP cs
    rw [h]
    simp [sizeP]

theorem frontW_append (a b : List Entry) :
    frontW (a ++ b) = frontW a + frontW b := by
  simp [frontW]

theorem frontW_flatMap_le (fr : List Entry) :
    frontW (fr.flatMap (fun x => childEntries x.1 x.2)) + fr.length
      ≤ frontW fr := by
  induction fr with
  | nil => simp [frontW]
  | cons e es ih =>
    rw [List.flatMap_cons, frontW_append]
    have h1 := frontW_childEntries_lt e.1 e.2
    have h2 : frontW (e :: es) = sizeP e.2 + frontW es := by simp [frontW]
    simp only [List.length_cons, h2]
    omega

/-- The fuel passed to `bfsFuel` is irrelevant as soon as it covers the
node count of the frontier: all sufficient fuels produce the same
traversal, so `bfsList`'s choice of `sizeP packed` as fuel (strictly more
than the nodes below the root) never truncates the walk. -/
theorem bfsFuel_stable (n : ℕ) : ∀ (m : ℕ) (fr : List Entry),
    frontW fr ≤ n → frontW fr ≤ m → bfsFuel n fr = bfsFuel m fr := by
  induction n with
  | zero =>
    intro m fr hn _
    cases fr with
    | nil => cases m <;> rfl
    | cons e es =>
      exfalso
      have h1 := sizeP_pos e.2
      have h2 : frontW (e :: es) = sizeP e.2 + frontW es := by simp [frontW]
      omega
  | succ n ih =>
    intro m fr hn hm
    cases fr with
    | nil => cases m <;> rfl
    | cons e es =>
      cases m with
      | zero =>
        exfalso
        have h1 := sizeP_pos e.2
        have h2 : frontW (e :: es) = sizeP e.2 + frontW es := by simp [frontW]
        omega
      | succ m =>
        show (e :: es) ++ _ = (e :: es) ++ _
        congr 1
        have hlt := frontW_flatMap_le (e :: es)
        have hlen : 1 ≤ (e :: es).length := by simp
        apply ih
        · omega
        · omega

theorem jsPI_pos : (0 : ℚ) < jsPI := by norm_num [jsPI]

theorem one_le_sMinOf (t : TreeNode) : 1 ≤ sMinOf t := by
  unfold sMinOf
  split
  · exact le_refl 1
  · exact le_max_left _ _

theorem sMin_add_one_le_sMaxOf (t : TreeNode) :
    sMinOf t + 1 ≤ sMaxOf t := by
  unfold sMaxOf
  split
  · exact le_refl _
  · exact le_max_left _ _

theorem zero_leaves_bounds (t : TreeNode) (h : collectSizes t = []) :
    sMinOf t = 1 ∧ sMaxOf t = 2 := by
  have h1 : sMinOf t = 1 := by
    unfold sMinOf
    rw [h]
  refine ⟨h1, ?_⟩
  unfold sMaxOf
  rw [h, h1]
  norm_num

theorem clamper_mono (a b x1 x2 : ℚ) (hab : a ≤ b) (h : x1 ≤ x2) :
    clamper a b x1 ≤ clamper a b x2 := by
  unfold clamper
  rw [if_pos hab, if_pos hab]
  exact max_le_max (le_refl a) (min_le_min (le_refl b) h)

theorem clamper_mem (a b x : ℚ) (hab : a ≤ b) :
    a ≤ clamper a b x ∧ clamper a b x ≤ b := by
  unfold clamper
  rw [if_pos hab]
  exact ⟨le_max_left _ _, max_le hab (min_le_left _ _)⟩

theorem lg_den_pos (lg : ℚ → ℚ) (a b : ℚ)
    (hlg : StrictMonoOn lg (Set.Ici 1)) (ha : 1 ≤ a) (hab : a + 1 ≤ b) :
    0 < lg b - lg a := by
  have hb : (1 : ℚ) ≤ b := by linarith
  have := hlg (Set.mem_Ici.2 ha) (Set.mem_Ici.2 hb) (by linarith : a < b)
  linarith

theorem d3LogScale_eq_spec (lg : ℚ → ℚ) (a b x : ℚ)
    (hlg : StrictMonoOn lg (Set.Ici 1)) (ha : 1 ≤ a) (hab : a + 1 ≤ b)
    (hx : 1 ≤ x) : d3LogScale lg a b x = specLogScale lg a b x := by
  have hb : (1 : ℚ) ≤ b := by linarith
  have hab' : a < b := by linarith
  have hden := lg_den_pos lg a b hlg ha hab
  have hxm : x ∈ Set.Ici (1 : ℚ) := Set.mem_Ici.2 hx
  have ham : a ∈ Set.Ici (1 : ℚ) := Set.mem_Ici.2 ha
  have hbm : b ∈ Set.Ici (1 : ℚ) := Set.mem_Ici.2 hb
  have hne : ¬(lg b - lg a = 0) := by
    intro hz
    rw [hz] at hden
    exact absurd hden (by norm_num)
  simp only [d3LogScale, specLogScale, clamper, clamp]
  rw [if_pos hab'.le, if_neg hne]
  rcases le_total x a with hxa | hax
  · have h1 : max a (min b x) = a := by
      rw [max_eq_left ((min_le_right b x).trans hxa)]
    rw [h1, sub_self, zero_div, zero_mul, add_zero]
    have hlgx : lg x ≤ lg a := hlg.monotoneOn hxm ham hxa
    have hq : (lg x - lg a) / (lg b - lg a) ≤ 0 := by
      rw [div_nonpos_iff]
      right
      constructor <;> linarith
    have hv : 1 + (lg x - lg a) / (lg b - lg a) * 99 ≤ 1 := by nlinarith
    rw [min_eq_right (hv.trans (by norm_num)), max_eq_left hv]
  · rcases le_total b x with hbx | hxb
    · have h1 : max a (min b x) = b := by
        rw [min_eq_left hbx, max_eq_right hab'.le]
      rw [h1, div_self (by intro hz; rw [hz] at hden; exact absurd hden (by norm_num))]
      have hlgx : lg b ≤ lg x := hlg.monotoneOn hbm hxm hbx
      have hq : (1 : ℚ) ≤ (lg x - lg a) / (lg b - lg a) := by
        rw [le_div_iff hden]
        linarith
      have hv : (100 : ℚ) ≤ 1 + (lg x - lg a) / (lg b - lg a) * 99 := by
        nlinarith
      rw [min_eq_left hv, max_eq_right (by norm_num : (1 : ℚ) ≤ 100)]
      norm_num
    · have h1 : max a (min b x) = x := by
        rw [min_eq_right hxb, max_eq_right hax]
      rw [h1]
      have hlgax : lg a ≤ lg x := hlg.monotoneOn ham hxm hax
      have hlgxb : lg x ≤ lg b := hlg.monotoneOn hxm hbm hxb
      have h2 : 0 ≤ (lg x - lg a) / (lg b - lg a) :=
        div_nonneg (by linarith) hden.le
      have h3 : (lg x - lg a) / (lg b - lg a) ≤ 1 := by
        rw [div_le_one hden]
        linarith
      rw [min_eq_right (by nlinarith), max_eq_right (by nlinarith)]

theorem d3LogScale_mono (lg : ℚ → ℚ) (a b x1 x2 : ℚ)
    (hlg : StrictMonoOn lg (Set.Ici 1)) (ha : 1 ≤ a) (hab : a + 1 ≤ b)
    (hx1 : 1 ≤ x1) (h : x1 ≤ x2) :
    d3LogScale lg a b x1 ≤ d3LogScale lg a b x2 := by
  have hab' : a ≤ b := by linarith
  have hden := lg_den_pos lg a b hlg ha hab
  have hc1 := clamper_mem a b x1 hab'
  have hc2 := clamper_mem a b x2 hab'
  have hm1 : clamper a b x1 ∈ Set.Ici (1 : ℚ) :=
    Set.mem_Ici.2 (ha.trans hc1.1)
  have hm2 : clamper a b x2 ∈ Set.Ici (1 : ℚ) :=
    Set.mem_Ici.2 (ha.trans hc2.1)
  have hmono : lg (clamper a b x1) ≤ lg (clamper a b x2) :=
    hlg.monotoneOn hm1 hm2 (clamper_mono a b x1 x2 hab' h)
  have hne : ¬(lg b - lg a = 0) := by
    intro hz
    rw [hz] at hden
    exact absurd hden (by norm_num)
  simp only [d3LogScale]
  rw [if_neg hne, if_neg hne]
  have hq : (lg (clamper a b x1) - lg a) / (lg b - lg a)
      ≤ (lg (clamper a b x2) - lg a) / (lg b - lg a) :=
    (div_le_div_right hden).2 (by linarith)
  nlinarith

theorem d3LogScale_bounds (lg : ℚ → ℚ) (a b x : ℚ)
    (hlg : StrictMonoOn lg (Set.Ici 1)) (ha : 1 ≤ a) (hab : a + 1 ≤ b) :
    1 ≤ d3LogScale lg a b x ∧ d3LogScale lg a b x ≤ 100 := by
  have hab' : a ≤ b := by linarith
  have hb : (1 : ℚ) ≤ b := by linarith
  have hden := lg_den_pos lg a b hlg ha hab
  have hc := clamper_mem a b x hab'
  have hm : clamper a b x ∈ Set.Ici (1 : ℚ) := Set.mem_Ici.2 (ha.trans hc.1)
  have hla : lg a ≤ lg (clamper a b x) :=
    hlg.monotoneOn (Set.mem_Ici.2 ha) hm hc.1
  have hlb : lg (clamper a b x) ≤ lg b :=
    hlg.monotoneOn hm (Set.mem_Ici.2 hb) hc.2
  have hne : ¬(lg b - lg a = 0) := by
    intro hz
    rw [hz] at hden
    exact absurd hden (by norm_num)
  simp only [d3LogScale]
  rw [if_neg hne]
  have h2 : 0 ≤ (lg (clamper a b x) - lg a) / (lg b - lg a) :=
    div_nonneg (by linarith) hden.le
  have h3 : (lg (clamper a b x) - lg a) / (lg b - lg a) ≤ 1 := by
    rw [div_le_one hden]
    linarith
  constructor <;> nlinarith

/-- Claim C3: for every leaf with byte size `s`, the layout weight — the
value the `root.sum` callback assigns to that leaf — equals
`logScale(max(1, s))`, where `logScale` is the spec's logarithmic
interpolation of the observed leaf-size interval `[sMin, sMax]` onto
`[1, 100]`, clamped to that range; `sMax` is widened so that
`sMax ≥ sMin + 1`, a tree with zero leaves gets `sMin = 1` and
`sMax = 2`, and directories contribute weight 0 of their own.  Stated
for an arbitrary strictly monotone logarithm `lg`, since the normalised
interpolation ratio is the same for every logarithm base (the spec's
base 10 and `d3`'s natural log included). -/
theorem claim3_leaf_weight (t : TreeNode) (lg : ℚ → ℚ)
    (hlg : StrictMonoOn lg (Set.Ici 1)) (name ext : String) (s : ℚ)
    (hmem : (name, s, ext) ∈ leavesOf t) :
    weightFnOf lg t (.file name s ext)
        = specLogScale lg (sMinOf t) (sMaxOf t) (max 1 s) ∧
    (∀ (nm : String) (cs : TForest), weightFnOf lg t (.dir nm cs) = 0) ∧
    1 ≤ sMinOf t ∧ sMinOf t + 1 ≤ sMaxOf t ∧
    (collectSizes t = [] → sMinOf t = 1 ∧ sMaxOf t = 2) := by
  refine ⟨?_, fun nm cs => rfl, one_le_sMinOf t, sMin_add_one_le_sMaxOf t,
    zero_leaves_bounds t⟩
  exact d3LogScale_eq_spec lg (sMinOf t) (sMaxOf t) (max 1 s) hlg
    (one_le_sMinOf t) (sMin_add_one_le_sMaxOf t) (le_max_left 1 s)

/-- Witness for C3: the 10000-byte leaf of the concrete tree. -/
theorem claim3_witness :
    weightFnOf id cexTree (.file "b.md" 10000 ".md")
      = specLogScale id (sMinOf cexTree) (sMaxOf cexTree) (max 1 10000) :=
  (claim3_leaf_weight cexTree id (fun _ _ _ _ h => h) "b.md" ".md" 10000
    (by decide)).1

/-- Claim C6: the weight map is monotone — for byte sizes `s1 < s2` the
leaf weights satisfy `weight(s1) ≤ weight(s2)` — and therefore so are
the packed leaf radii `sqrt(weight / π) * k` (the packing engine's leaf
radius, modelled from spec §4.2 since the packing lives in the external
`d3-hierarchy` library).  Stated for an arbitrary strictly monotone
logarithm and an arbitrary monotone square root, which the real
`Math.log` and square root are. -/
theorem claim6_weight_radius_monotone (t : TreeNode) (lg sq : ℚ → ℚ)
    (k s1 s2 : ℚ) (hlg : StrictMonoOn lg (Set.Ici 1))
    (hsq : MonotoneOn sq (Set.Ici 0)) (hk : 0 ≤ k) (h12 : s1 < s2) :
    leafWeight lg t s1 ≤ leafWeight lg t s2 ∧
    packLeafRadius sq k (leafWeight lg t s1)
      ≤ packLeafRadius sq k (leafWeight lg t s2) := by
  have ha := one_le_sMinOf t
  have hab := sMin_add_one_le_sMaxOf t
  have hw : leafWeight lg t s1 ≤ leafWeight lg t s2 :=
    d3LogScale_mono lg (sMinOf t) (sMaxOf t) (max 1 s1) (max 1 s2) hlg ha hab
      (le_max_left 1 s1) (max_le_max (le_refl 1) h12.le)
  have hb1 := d3LogScale_bounds lg (sMinOf t) (sMaxOf t) (max 1 s1) hlg ha hab
  have hb2 := d3LogScale_bounds lg (sMinOf t) (sMaxOf t) (max 1 s2) hlg ha hab
  have hw1 : (1 : ℚ) ≤ leafWeight lg t s1 := hb1.1
  have hw2 : (1 : ℚ) ≤ leafWeight lg t s2 := hb2.1
  refine ⟨hw, ?_⟩
  unfold packLeafRadius
  have hm1 : leafWeight lg t s1 / jsPI ∈ Set.Ici (0 : ℚ) :=
    Set.mem_Ici.2 (div_nonneg (by linarith) jsPI_pos.le)
  have hm2 : leafWeight lg t s2 / jsPI ∈ Set.Ici (0 : ℚ) :=
    Set.mem_Ici.2 (div_nonneg (by linarith) jsPI_pos.le)
  have hdiv : leafWeight lg t s1 / jsPI ≤ leafWeight lg t s2 / jsPI :=
    (div_le_div_right jsPI_pos).2 hw
  exact mul_le_mul_of_nonneg_right (hsq hm1 hm2 hdiv) hk

/-- Witness for C6: the 10-byte and 10000-byte sizes of the concrete
tree, with the identity as (monotone) logarithm and square root and
scale constant 1. -/
theorem claim6_witness :
    leafWeight id cexTree 10 ≤ leafWeight id cexTree 10000 ∧
    packLeafRadius id 1 (leafWeight id cexTree 10)
      ≤ packLeafRadius id 1 (leafWeight id cexTree 10000) :=
  claim6_weight_radius_monotone cexTree id id 1 10 10000
    (fun _ _ _ _ h => h) (fun _ _ _ _ h => h) (by norm_num) (by norm_num)

end LSphere
